import Mathlib

/-!
# Verification of the material-news monitor core (`trend.py`)

Shallow embedding, in Lean 4, of the core pipeline of the repository's single
source file `trend.py`: query expansion, the relevance scorer, the two-phase
deduplicator, timestamp normalisation, the pinned-signal merge, the relevance
floor, the final ordering, and the bounded-retry HTTP helper.

Modelling conventions, fixed once here:

* Python strings are `String`/`List Char`; `str.lower` is modelled by
  `Char.toLower` (ASCII case folding — every configured keyword is ASCII).
* Python floats are modelled by exact rationals `ℚ`; `int(x)` is truncation
  toward zero (`pyInt`).
* The fuzzy string metrics of the `rapidfuzz` library
  (`fuzz.token_set_ratio`, `fuzz.partial_ratio`) are embedded from that
  library's published algorithm: the normalised Indel similarity
  (`ratioQ`, `100·(1 − dist/lensum)` with the Indel distance
  `|a|+|b| − 2·lcs a b`), the best-alignment sliding-window maximum for
  `fuzz.partial_ratio` (`winRatioQ`), and the token-set decomposition for
  `fuzz.token_set_ratio` (`tokenSetQ`).
* `hash_id` truncates a SHA-256 digest of the UTF-8 bytes of its parts,
  concatenated with no separator.  The digest is a function of exactly that
  byte concatenation; we model the fingerprint as the concatenated string
  itself (collisions of the truncated digest are assumed absent).
* Network, sleeping and randomness are modelled by explicit oracles
  (an outcome per attempt, a jitter value per attempt) and an explicit
  trace of the sleeps performed.
* The successive `today_local()` readings of one run (pinned timestamps and
  the unparseable-date fallback) are modelled as a single run instant `now`.
-/

set_option maxRecDepth 16000

/- ================================================================
   Fuzzy string metrics (rapidfuzz embedding)
   ================================================================ -/

/-- One row of the longest-common-subsequence dynamic program: given the
previous row (headed by `diag`, rest `prev`), the next-row cells over `ys`. -/
def lcsAux (x : Char) : List Char → List Nat → Nat → Nat → List Nat
  | [], _, _, _ => []
  | _ :: _, [], _, _ => []
  | y :: ys, up :: prev, diag, left =>
      let cur := if x = y then diag + 1 else max left up
      cur :: lcsAux x ys prev up cur

/-- Advance the LCS dynamic program by one character of the first string. -/
def lcsRow (x : Char) (ys : List Char) (row : List Nat) : List Nat :=
  match row with
  | [] => []
  | p0 :: prest => 0 :: lcsAux x ys prest p0 0

/-- Length of a longest common subsequence of two character lists. -/
def lcs (xs ys : List Char) : Nat :=
  (xs.foldl (fun row x => lcsRow x ys row) (List.replicate (ys.length + 1) 0)).getLastD 0

/-- Indel distance (Levenshtein distance with substitutions forbidden):
`|a| + |b| - 2 · lcs a b`. -/
def indelDist (a b : List Char) : Nat := a.length + b.length - 2 * lcs a b

/-- Embeds `fuzz.ratio`: normalised Indel similarity scaled to 0–100
(`100` for two empty strings, by the rapidfuzz convention). -/
def ratioQ (a b : List Char) : ℚ :=
  if a.length + b.length = 0 then 100
  else 100 * ((a.length + b.length : ℚ) - indelDist a b) / (a.length + b.length)

/-- The candidate alignments scanned by `fuzz.partial_ratio` for a needle `a`
not longer than the haystack `b`: every length-`|a|` window of `b`, together
with the shorter windows hanging off either edge. -/
def fuzzWindows (a b : List Char) : List (List Char) :=
  (List.range (a.length + b.length - 1)).map fun o =>
    (b.drop (o + 1 - a.length)).take (min (o + 1) b.length - (o + 1 - a.length))

/-- Core of `fuzz.partial_ratio` once the needle `a` is the shorter string:
best `fuzz.ratio` of `a` against the scanned windows of `b`. -/
def winRatioCore (a b : List Char) : ℚ :=
  if a.length = 0 ∧ b.length = 0 then 100
  else (fuzzWindows a b).foldl (fun acc w => max acc (ratioQ a w)) 0

/-- Embeds `fuzz.partial_ratio`: best `fuzz.ratio` over the alignments of the shorter
string inside the longer one. -/
def winRatioQ (s1 s2 : List Char) : ℚ :=
  if s1.length ≤ s2.length then winRatioCore s1 s2 else winRatioCore s2 s1

/-- Python `str.split()` whitespace. -/
def isPyWS (c : Char) : Bool :=
  c == ' ' || c == '\t' || c == '\n' || c == '\r' || c == '\x0b' || c == '\x0c'

/-- Helper for `splitWS`: accumulate the current word (reversed). -/
def splitWSAux : List Char → List Char → List (List Char)
  | [], acc => if acc = [] then [] else [acc.reverse]
  | c :: rest, acc =>
      if isPyWS c then
        (if acc = [] then splitWSAux rest [] else acc.reverse :: splitWSAux rest [])
      else splitWSAux rest (c :: acc)

/-- Python `str.split()`: split on whitespace runs, dropping empty words. -/
def splitWS (s : List Char) : List (List Char) := splitWSAux s []

/-- Python string comparison (`<`): lexicographic by code point. -/
def lexLtChars : List Char → List Char → Bool
  | [], [] => false
  | [], _ :: _ => true
  | _ :: _, [] => false
  | a :: as, b :: bs => if a = b then lexLtChars as bs else decide (a < b)

/-- Insert into a lexicographically sorted token list. -/
def insSorted (x : List Char) : List (List Char) → List (List Char)
  | [] => [x]
  | y :: ys => if lexLtChars x y then x :: y :: ys else y :: insSorted x ys

/-- Sort tokens lexicographically (Python `sorted`). -/
def sortTokens (l : List (List Char)) : List (List Char) := l.foldr insSorted []

/-- Drop adjacent duplicates of a sorted list (so the result is the sorted
image of Python's `set`). -/
def dedupAdj : List (List Char) → List (List Char)
  | [] => []
  | [x] => [x]
  | x :: y :: rest =>
      if x = y then dedupAdj (y :: rest) else x :: dedupAdj (y :: rest)

/-- The sorted set of whitespace-separated tokens of a string
(Python `sorted(set(s.split()))`). -/
def tokenSet (s : List Char) : List (List Char) := dedupAdj (sortTokens (splitWS s))

/-- Join tokens with single spaces (Python `" ".join`). -/
def joinSpace : List (List Char) → List Char
  | [] => []
  | [x] => x
  | x :: y :: rest => x ++ ' ' :: joinSpace (y :: rest)

/-- Embeds `100·(1 − d/n)`, the normalised-distance-to-similarity conversion used by
rapidfuzz (`100` when the length sum `n` is zero). -/
def normSim (d n : Nat) : ℚ := if n = 0 then 100 else 100 - 100 * (d : ℚ) / n

/-- Embeds `fuzz.token_set_ratio`, rapidfuzz's algorithm: split both strings into
token sets; if one set of common-plus-unique tokens is contained in the other
the score is 100; otherwise the best of the three Indel ratios between
`sect`, `sect + diff_ab` and `sect + diff_ba` (computed from the joined
difference strings, as rapidfuzz does). -/
def tokenSetQ (a b : List Char) : ℚ :=
  let ta := tokenSet a
  let tb := tokenSet b
  if ta = [] ∨ tb = [] then 0
  else
    let inter := ta.filter (fun t => decide (t ∈ tb))
    let dab := ta.filter (fun t => decide (t ∉ tb))
    let dba := tb.filter (fun t => decide (t ∉ ta))
    if inter ≠ [] ∧ (dab = [] ∨ dba = []) then 100
    else
      let sab := joinSpace dab
      let sba := joinSpace dba
      let sectLen := (joinSpace inter).length
      let bonus := if sectLen = 0 then 0 else 1
      let sectAb := sectLen + bonus + sab.length
      let sectBa := sectLen + bonus + sba.length
      let best := normSim (indelDist sab sba) (sectAb + sectBa)
      if sectLen = 0 then best
      else
        max best
          (max (normSim (bonus + sab.length) (sectLen + sectAb))
               (normSim (bonus + sba.length) (sectLen + sectBa)))

/-- Python substring containment: does `n` occur at the start of `h`? -/
def leadsWith : List Char → List Char → Bool
  | [], _ => true
  | _ :: _, [] => false
  | a :: as, b :: bs => a == b && leadsWith as bs

/-- Python substring containment (`n in h`). -/
def hasSub (n : List Char) : List Char → Bool
  | [] => leadsWith n []
  | c :: rest => leadsWith n (c :: rest) || hasSub n rest

/-- Python `str.lower` (ASCII folding), producing the character list. -/
def lowerStr (s : String) : List Char := s.toList.map Char.toLower

/-- Python `int()` on a rational: truncation toward zero. -/
def pyInt (q : ℚ) : Int := if q < 0 then -⌊-q⌋ else ⌊q⌋

/- ================================================================
   Configuration (transcribed from the CONFIG section of trend.py)
   ================================================================ -/

def MAX_ITEMS_PER_MATERIAL_PER_SOURCE : Nat := 12

def MIN_RELEVANCE : Int := 60

def GDELT_DAYS_BACK : Nat := 10

def RETRY_ATTEMPTS : Nat := 3

/-- Embeds `RETRY_BACKOFF = (1.2, 2.0)`, as exact rationals. -/
def RETRY_BACKOFF : ℚ × ℚ := (12/10, 2)

def PINNED_SIGNALS : List String := ["https://www.bbc.com/news/articles/c9qy98gp474o"]

def MPL_TERMS : List String := [
    "Movit", "Movit Products", "MPL", "Radiant", "Movit Uganda", "Movit East Africa",
    "cosmetics", "personal care", "hair care", "skin care", "beauty industry"
]

def EAST_AF_HINTS : List String := [
    "Uganda", "Kenya", "Tanzania", "Rwanda", "Burundi", "DRC", "Zambia",
    "South Sudan", "Malawi", "Mozambique", "Angola", "Zimbabwe", "Nigeria",
    "East Africa", "COMESA", "EAC"
]

def GLOBAL_SUPPLY_HINTS : List String := [
    "Suez Canal", "Panama Canal", "Strait of Hormuz", "Red Sea", "Cape of Good Hope",
    "port congestion", "port strike", "rail strike", "truckers strike", "freight rates",
    "container shortage", "IMO 2020", "shipping disruption", "supply chain disruption",
    "Houthi", "piracy", "Maersk", "MSC", "CMA CGM", "Evergreen", "Hapag-Lloyd",
    "Brent", "WTI", "naphtha", "paraffin", "propane", "butane", "natural gas",
    "feedstock", "oleochemicals", "palm oil", "palm kernel oil", "PKO", "coconut oil",
    "tallow", "ethanol", "isopropanol", "propylene", "ethylene", "benzene",
    "export ban", "export curbs", "sanctions", "REACH", "IFRA", "EU cosmetics regulation",
    "US FDA cosmetics", "Kenya Bureau of Standards", "UNBS", "tax", "levy", "tariff", "VAT"
]

def GLOBAL_PORTS : List String := [
    "Shanghai", "Ningbo", "Shenzhen", "Tianjin", "Qingdao", "Busan",
    "Singapore", "Port Klang", "Tanjung Pelepas", "Nhava Sheva", "Mundra",
    "Jebel Ali", "Rotterdam", "Antwerp", "Hamburg", "Felixstowe",
    "Durban", "Mombasa", "Dar es Salaam", "Djibouti", "Walvis Bay"
]

/-- The `SYNONYMS` dict as a total lookup, empty list for absent keys
(`SYNONYMS.get(material, [])`). -/
def SYNONYMS : String → List String
  | "LPG GAS" => ["liquefied petroleum gas", "propane", "butane", "autogas"]
  | "SLES 70%(TEXAPON) SODIUM LAURYL ETHER SU" =>
      ["SLES 70", "sodium laureth sulfate", "texapon", "lauryl ether sulfate"]
  | "PHOSPHERIC ACID" => ["phosphoric acid", "H3PO4"]
  | "CETOSTEARYL ALCOHOL (LANETTE  D )" =>
      ["cetearyl alcohol", "cetostearyl alcohol", "lanette d"]
  | "TRIETHANOLAMINE" => ["TEA", "triethanolamine"]
  | "ACETONE" => ["propanone"]
  | "HYDROGEN PEROXIDE 50%" => ["H2O2 50%", "hydrogen peroxide solution"]
  | "THIOGLYCOLIC ACID 99%" => ["mercaptoacetic acid", "thioglycolic acid"]
  | "REFINED SULPHUR POWDER" => ["sulfur powder", "sulphur powder"]
  | "AEROSOL PROPELLANT GAS" => ["propellant gas", "aerosol propellant", "LPG propellant"]
  | "WHITE OIL/ LIQUID PARAFFIN LIGHT" =>
      ["white mineral oil", "liquid paraffin", "white mineral oil light"]
  | "CARBOPOL 990" => ["carbomer 990", "carbopol polymer"]
  | "CETEARETH 25" => ["ceteareth-25"]
  | "BEHENTRIMONIUM CHLORIDE" => ["BTAC", "behentrimonium chloride"]
  | "SODIUM BENZOATE POWDER BP 2017" => ["sodium benzoate"]
  | "PVP K 30" => ["polyvinylpyrrolidone k30", "povidone k30"]
  | "GLYCERINE  OIL" => ["glycerin", "glycerol"]
  | "POLYSORBATE 20" => ["tween 20", "polyoxyethylene (20) sorbitan monolaurate"]
  | "CRODOMOL STS" => ["cetearyl ethylhexanoate (Crodamol STS)", "crodamol sts"]
  | "PLANTACARE 818 UP" => ["caprylyl/capryl glucoside", "plantacare 818"]
  | "XIAMETER (PMX 245)/SK.SF 1202" =>
      ["octamethyltrisiloxane", "OMTS", "PMX-245", "silicone solvent"]
  | _ => []

/- ================================================================
   Query expansion, candidate rows, relevance scoring
   ================================================================ -/

/-- Order-preserving removal of exact duplicates (`dict.fromkeys`). -/
def dedupKeepFirst : List String → List String → List String
  | [], _ => []
  | x :: rest, seen =>
      if x ∈ seen then dedupKeepFirst rest seen
      else x :: dedupKeepFirst rest (x :: seen)

/-- Embeds `expand_queries`: the material followed by its synonyms, first-occurrence
deduplicated. -/
def expand_queries (material : String) : List String :=
  dedupKeepFirst (material :: SYNONYMS material) []

/-- One candidate/scored item.  `trend.py` passes rows around as dicts with
default `""` for absent fields; the structure models a row with the defaults
already applied.  `score` is the field attached by `main` (`r["score"]`). -/
structure Row where
  material : String
  query_variant : String
  title : String
  url : String
  published : String
  source : String
  summary : String
  score : Int
deriving DecidableEq, Repr

/-- The lowercased text blob `f"{title} {summary}".lower()` of a row. -/
def textLower (r : Row) : List Char := lowerStr (r.title ++ " " ++ r.summary)

/-- Embeds `base`: best token-set ratio between the blob and the material's
expanded queries. -/
def baseQ (r : Row) : ℚ :=
  (expand_queries r.material).foldl
    (fun acc t => max acc (tokenSetQ (lowerStr t) (textLower r))) 0

/-- Embeds `mpl_boost`: `0.6 ×` best partial ratio against the MPL context terms. -/
def mplQ (r : Row) : ℚ :=
  MPL_TERMS.foldl
    (fun acc t => max acc ((6/10 : ℚ) * winRatioQ (lowerStr t) (textLower r))) 0

/-- Embeds `east_boost`: `0.35 ×` best partial ratio against the region hints. -/
def eastQ (r : Row) : ℚ :=
  EAST_AF_HINTS.foldl
    (fun acc t => max acc ((35/100 : ℚ) * winRatioQ (lowerStr t) (textLower r))) 0

/-- Embeds `global_boost`: `0.35 ×` best partial ratio against the supply hints and
tracked ports. -/
def globQ (r : Row) : ℚ :=
  (GLOBAL_SUPPLY_HINTS ++ GLOBAL_PORTS).foldl
    (fun acc t => max acc ((35/100 : ℚ) * winRatioQ (lowerStr t) (textLower r))) 0

/-- The fixed generic/off-topic keyword list of `relevance_score`. -/
def GENERIC_TOPICS : List String := ["celebrity", "football", "movie", "lottery", "gossip"]

/-- Embeds `generic`: does the blob contain one of the generic/off-topic keywords? -/
def genericHit (r : Row) : Bool :=
  GENERIC_TOPICS.any (fun k => hasSub k.toList (textLower r))

/-- The penalty applied for generic/off-topic content: 12 or 0. -/
def penaltyQ (r : Row) : ℚ := if genericHit r then 12 else 0

/-- The raw (unclamped) score `base + mpl_boost + east_boost + global_boost
− penalty`. -/
def rawScoreQ (r : Row) : ℚ := baseQ r + mplQ r + eastQ r + globQ r - penaltyQ r

/-- Embeds `relevance_score`: `int(min(100, raw))`. -/
def relevance_score (r : Row) : Int := pyInt (min 100 (rawScoreQ r))

/-- The final line of `relevance_score` factored over its intermediate
values, for relating penalised and unpenalised scores. -/
def scoreParts (b m e g : ℚ) (generic : Bool) : Int :=
  pyInt (min 100 (b + m + e + g - (if generic then 12 else 0)))

/- ================================================================
   Deduplication
   ================================================================ -/

/-- Embeds `hash_id`: SHA-256 of the parts' UTF-8 bytes concatenated with no
separator, truncated to 16 hex digits.  The digest is a function of exactly
the concatenated byte string, which is what we keep (truncated-digest
collisions are assumed absent; UTF-8 encoding concatenates along with the
strings). -/
def hash_id (parts : List String) : String := String.join parts

/-- The dedup fingerprint of a row: `hash_id(url, title)` (with the dict
defaults `""` already applied). -/
def fingerprint (r : Row) : String := hash_id [r.url, r.title]

/-- One iteration of the `deduplicate` loop.  State: the `seen` fingerprint
set and the `keep` list.  A row whose fingerprint was already seen is
skipped; otherwise it is compared to every kept row by token-set title
similarity and dropped at `≥ 92`; otherwise it is recorded and kept. -/
def dedupStep (st : List String × List Row) (r : Row) : List String × List Row :=
  if fingerprint r ∈ st.1 then st
  else if st.2.any (fun u => decide (92 ≤ tokenSetQ (lowerStr r.title) (lowerStr u.title))) then st
  else (fingerprint r :: st.1, st.2 ++ [r])

/-- Embeds `deduplicate`: single left-to-right pass threading the dedup state. -/
def deduplicate (rows : List Row) : List Row := (rows.foldl dedupStep ([], [])).2

/- ================================================================
   General lemmas about the fuzzy metrics and the score folds
   ================================================================ -/

theorem foldl_max_init_le {α : Type} (f : α → ℚ) :
    ∀ (l : List α) (i : ℚ), i ≤ l.foldl (fun a x => max a (f x)) i
  | [], _ => le_refl _
  | x :: xs, i => le_trans (le_max_left i (f x)) (foldl_max_init_le f xs _)

theorem le_foldl_max {α : Type} (f : α → ℚ) :
    ∀ (l : List α) (i : ℚ) (x : α), x ∈ l → f x ≤ l.foldl (fun a x => max a (f x)) i
  | y :: ys, i, x, hx => by
      rcases List.mem_cons.mp hx with h | h
      · subst h
        exact le_trans (le_max_right i (f x)) (foldl_max_init_le f ys _)
      · exact le_foldl_max f ys (max i (f y)) x h

theorem foldl_max_le {α : Type} (f : α → ℚ) (c : ℚ) :
    ∀ (l : List α) (i : ℚ), i ≤ c → (∀ x ∈ l, f x ≤ c) →
      l.foldl (fun a x => max a (f x)) i ≤ c
  | [], _, hi, _ => hi
  | x :: xs, i, hi, hl => by
      refine foldl_max_le f c xs (max i (f x)) (max_le hi ?_) ?_
      · exact hl x (List.mem_cons_self x xs)
      · exact fun y hy => hl y (List.mem_cons_of_mem x hy)

theorem ratioQ_le_100 (a b : List Char) : ratioQ a b ≤ 100 := by
  unfold ratioQ
  split
  · exact le_refl _
  · rename_i h
    have hS : (0 : ℚ) < (a.length : ℚ) + b.length := by
      exact_mod_cast Nat.pos_of_ne_zero h
    rw [div_le_iff₀ hS]
    have hd : (0 : ℚ) ≤ (indelDist a b : ℚ) := Nat.cast_nonneg _
    nlinarith

theorem normSim_le_100 (d n : Nat) : normSim d n ≤ 100 := by
  unfold normSim
  split
  · exact le_refl _
  · rename_i h
    have hn : (0 : ℚ) < (n : ℚ) := by
      exact_mod_cast Nat.pos_of_ne_zero h
    have : 0 ≤ 100 * (d : ℚ) / n := by positivity
    linarith

theorem tokenSetQ_le_100 (a b : List Char) : tokenSetQ a b ≤ 100 := by
  simp only [tokenSetQ]
  split_ifs
  · norm_num
  · norm_num
  · exact normSim_le_100 _ _
  · exact max_le (normSim_le_100 _ _) (max_le (normSim_le_100 _ _) (normSim_le_100 _ _))

theorem winRatioCore_le_100 (a b : List Char) : winRatioCore a b ≤ 100 := by
  unfold winRatioCore
  split
  · exact le_refl _
  · exact foldl_max_le _ 100 _ 0 (by norm_num) (fun w _ => ratioQ_le_100 _ _)

theorem winRatioQ_le_100 (a b : List Char) : winRatioQ a b ≤ 100 := by
  unfold winRatioQ
  split
  · exact winRatioCore_le_100 a b
  · exact winRatioCore_le_100 b a

theorem winRatioCore_nonneg (a b : List Char) : 0 ≤ winRatioCore a b := by
  unfold winRatioCore
  split
  · norm_num
  · exact foldl_max_init_le _ _ 0

theorem winRatioQ_nonneg (a b : List Char) : 0 ≤ winRatioQ a b := by
  unfold winRatioQ
  split
  · exact winRatioCore_nonneg a b
  · exact winRatioCore_nonneg b a

/-- A window of the haystack realised inside `fuzz.partial_ratio`'s scan:
if `b = u ++ w ++ v` with `|w| = |a|` and `a` nonempty, the alignment of `a`
against `w` is among the scanned ones, so the best ratio is at least
`ratioQ a w`. -/
theorem ratio_window_le_winRatioCore (a b u w v : List Char)
    (hw : w.length = a.length) (ha : a ≠ [])
    (hb : b = u ++ w ++ v) : ratioQ a w ≤ winRatioCore a b := by
  have hapos : 0 < a.length := List.length_pos.mpr ha
  have hblen : b.length = u.length + a.length + v.length := by
    subst hb
    simp [List.length_append, hw]
    omega
  unfold winRatioCore
  have hcond : ¬ (a.length = 0 ∧ b.length = 0) := by
    intro hc
    exact absurd hc.1 (Nat.pos_iff_ne_zero.mp hapos)
  rw [if_neg hcond]
  refine le_foldl_max (fun win => ratioQ a win) _ 0 w ?_
  unfold fuzzWindows
  refine List.mem_map.mpr ⟨u.length + a.length - 1, ?_, ?_⟩
  · refine List.mem_range.mpr ?_
    omega
  · have h1 : u.length + a.length - 1 + 1 - a.length = u.length := by omega
    have h2 : min (u.length + a.length - 1 + 1) b.length - u.length = w.length := by
      omega
    rw [h1, h2, hb, List.append_assoc, List.drop_left, List.take_left]

theorem ratio_window_le_winRatioQ (a b u w v : List Char)
    (hlen : a.length ≤ b.length) (hw : w.length = a.length) (ha : a ≠ [])
    (hb : b = u ++ w ++ v) : ratioQ a w ≤ winRatioQ a b := by
  unfold winRatioQ
  rw [if_pos hlen]
  exact ratio_window_le_winRatioCore a b u w v hw ha hb

theorem leadsWith_iff : ∀ (n h : List Char), leadsWith n h = true ↔ ∃ t, h = n ++ t
  | [], h => by simp [leadsWith]
  | a :: as, [] => by simp [leadsWith]
  | a :: as, b :: bs => by
      simp only [leadsWith, Bool.and_eq_true, beq_iff_eq]
      rw [leadsWith_iff as bs]
      constructor
      · rintro ⟨rfl, t, rfl⟩
        exact ⟨t, rfl⟩
      · rintro ⟨t, ht⟩
        injection ht with h1 h2
        exact ⟨h1.symm, t, h2⟩

theorem hasSub_iff : ∀ (n h : List Char), hasSub n h = true ↔ ∃ u v, h = u ++ n ++ v
  | n, [] => by
      simp only [hasSub]
      rw [leadsWith_iff]
      constructor
      · rintro ⟨t, ht⟩
        exact ⟨[], t, ht⟩
      · rintro ⟨u, v, huv⟩
        have hu : u = [] := by
          cases u with
          | nil => rfl
          | cons c cs => simp at huv
        subst hu
        exact ⟨v, by simpa using huv⟩
  | n, c :: rest => by
      simp only [hasSub, Bool.or_eq_true]
      rw [leadsWith_iff, hasSub_iff n rest]
      constructor
      · rintro (⟨t, ht⟩ | ⟨u, v, huv⟩)
        · exact ⟨[], t, by simpa using ht⟩
        · exact ⟨c :: u, v, by simp [huv]⟩
      · rintro ⟨u, v, huv⟩
        cases u with
        | nil => exact Or.inl ⟨v, by simpa using huv⟩
        | cons d ds =>
            simp only [List.cons_append, List.cons.injEq] at huv
            exact Or.inr ⟨ds, v, huv.2⟩

/- ================================================================
   Bounds on the score components
   ================================================================ -/

theorem baseQ_nonneg (r : Row) : 0 ≤ baseQ r := foldl_max_init_le _ _ 0

theorem mplQ_nonneg (r : Row) : 0 ≤ mplQ r := foldl_max_init_le _ _ 0

theorem eastQ_nonneg (r : Row) : 0 ≤ eastQ r := foldl_max_init_le _ _ 0

theorem globQ_nonneg (r : Row) : 0 ≤ globQ r := foldl_max_init_le _ _ 0

theorem baseQ_le_100 (r : Row) : baseQ r ≤ 100 :=
  foldl_max_le _ 100 _ 0 (by norm_num) (fun t _ => tokenSetQ_le_100 _ _)

theorem mplQ_le_60 (r : Row) : mplQ r ≤ 60 := by
  refine foldl_max_le _ 60 _ 0 (by norm_num) (fun t _ => ?_)
  have h := winRatioQ_le_100 (lowerStr t) (textLower r)
  linarith

theorem eastQ_le_35 (r : Row) : eastQ r ≤ 35 := by
  refine foldl_max_le _ 35 _ 0 (by norm_num) (fun t _ => ?_)
  have h := winRatioQ_le_100 (lowerStr t) (textLower r)
  linarith

theorem globQ_le_35 (r : Row) : globQ r ≤ 35 := by
  refine foldl_max_le _ 35 _ 0 (by norm_num) (fun t _ => ?_)
  have h := winRatioQ_le_100 (lowerStr t) (textLower r)
  linarith

/-- Compute a `foldl max` exactly: an element attains `c` and all elements
are bounded by `c ≥ 0`. -/
theorem foldl_max_eq {α : Type} (f : α → ℚ) (l : List α) (x : α) (c : ℚ)
    (hx : x ∈ l) (hfx : c ≤ f x) (hall : ∀ y ∈ l, f y ≤ c) (hc : 0 ≤ c) :
    l.foldl (fun a y => max a (f y)) 0 = c :=
  le_antisymm (foldl_max_le f c l 0 hc hall)
    (le_trans hfx (le_foldl_max f l 0 x hx))

/-- When the text blob contains one of the generic keywords, the best
`0.6 ×` partial ratio against the MPL terms is at least 12: a 5-character
slice of the occurrence is a scanned window for the term `"Movit"` and
already matches it at ratio ≥ 20. -/
theorem mplQ_ge_twelve_of_generic (r : Row) (hg : genericHit r = true) :
    12 ≤ mplQ r := by
  obtain ⟨k, hk, hsub⟩ := List.any_eq_true.mp hg
  obtain ⟨u, v, huv⟩ := (hasSub_iff _ _).mp hsub
  have hstep : ∀ win : List Char, win.length = 5 →
      (∃ pre suf, k.toList = pre ++ win ++ suf) →
      (20 : ℚ) ≤ ratioQ (lowerStr ("Movit")) win → 12 ≤ mplQ r := by
    intro win hwin ⟨pre, suf, hk5⟩ hr
    have hdec : textLower r = (u ++ pre) ++ win ++ (suf ++ v) := by
      rw [huv, hk5]
      simp [List.append_assoc]
    have hw : win.length = (lowerStr ("Movit")).length := by
      rw [hwin]
      decide
    have hne : lowerStr ("Movit") ≠ [] := by decide
    have hwr := ratio_window_le_winRatioCore (lowerStr ("Movit")) (textLower r)
      (u ++ pre) win (suf ++ v) hw hne hdec
    have hlen : (lowerStr ("Movit")).length ≤ (textLower r).length := by
      rw [hdec]
      simp only [List.length_append]
      omega
    have hwrq : ratioQ (lowerStr ("Movit")) win ≤ winRatioQ (lowerStr ("Movit")) (textLower r) := by
      unfold winRatioQ
      rw [if_pos hlen]
      exact hwr
    have hmem : (6/10 : ℚ) * winRatioQ (lowerStr ("Movit")) (textLower r) ≤ mplQ r := by
      refine le_foldl_max _ MPL_TERMS 0 ("Movit") ?_
      simp [MPL_TERMS]
    have : (20 : ℚ) ≤ winRatioQ (lowerStr ("Movit")) (textLower r) := le_trans hr hwrq
    linarith
  have hk5 : k = "celebrity" ∨ k = "football" ∨ k = "movie" ∨ k = "lottery" ∨ k = "gossip" := by
    simpa [GENERIC_TOPICS] using hk
  rcases hk5 with rfl | rfl | rfl | rfl | rfl
  · exact hstep (("ebrit").toList) (by decide)
      ⟨("cel").toList, ("y").toList, by decide⟩ (by with_unfolding_all decide)
  · exact hstep (("ootba").toList) (by decide)
      ⟨("f").toList, ("ll").toList, by decide⟩ (by with_unfolding_all decide)
  · exact hstep (("movie").toList) (by decide)
      ⟨[], [], by decide⟩ (by with_unfolding_all decide)
  · exact hstep (("lotte").toList) (by decide)
      ⟨[], ("ry").toList, by decide⟩ (by with_unfolding_all decide)
  · exact hstep (("gossi").toList) (by decide)
      ⟨[], ("p").toList, by decide⟩ (by with_unfolding_all decide)

/-- The raw score is never negative: the boosts are nonnegative and the
12-point penalty only fires when the MPL boost is already at least 12. -/
theorem rawScoreQ_nonneg (r : Row) : 0 ≤ rawScoreQ r := by
  have hb := baseQ_nonneg r
  have he := eastQ_nonneg r
  have hgl := globQ_nonneg r
  unfold rawScoreQ penaltyQ
  by_cases hg : genericHit r = true
  · have hm := mplQ_ge_twelve_of_generic r hg
    rw [if_pos hg]
    linarith
  · have hm := mplQ_nonneg r
    rw [if_neg hg]
    linarith

theorem pyInt_nonneg {q : ℚ} (h : 0 ≤ q) : 0 ≤ pyInt q := by
  unfold pyInt
  rw [if_neg (not_lt.mpr h)]
  exact Int.floor_nonneg.mpr h

theorem pyInt_le_100 {q : ℚ} (h : q ≤ 100) : pyInt q ≤ 100 := by
  unfold pyInt
  split
  · rename_i hneg
    have h1 : (0 : ℚ) ≤ -q := by linarith
    have h2 : (0 : ℤ) ≤ ⌊-q⌋ := Int.floor_nonneg.mpr h1
    omega
  · have h1 : (⌊q⌋ : ℤ) ≤ ⌊(100 : ℚ)⌋ := Int.floor_le_floor h
    have h2 : (⌊(100 : ℚ)⌋ : ℤ) = 100 := by norm_num
    omega

/-- C1 (claims.json): for every CandidateItem — any material, title and
summary strings — `relevance_score` is an integer in `[0, 100]` and equals
`base + brand_boost + region_boost + global_boost − penalty` clamped below at
0 and above at 100, then truncated to an integer.  (The source computes
`int(min(100, raw))`; the lower clamp is equivalent because the raw score is
provably never negative, `rawScoreQ_nonneg`.) -/
theorem claim_C1_score_range (r : Row) :
    relevance_score r = pyInt (min 100 (max 0 (rawScoreQ r))) ∧
    0 ≤ relevance_score r ∧ relevance_score r ≤ 100 := by
  have h0 := rawScoreQ_nonneg r
  refine ⟨?_, ?_, ?_⟩
  · unfold relevance_score
    rw [max_eq_right h0]
  · exact pyInt_nonneg (le_min (by norm_num) h0)
  · exact pyInt_le_100 (min_le_left _ _)

/- ================================================================
   Deduplication lemmas
   ================================================================ -/

/-- The near-duplicate test of `deduplicate`, as executed for a new row `r`
against the kept rows. -/
def nearDupAny (keep : List Row) (r : Row) : Bool :=
  keep.any (fun u => decide (92 ≤ tokenSetQ (lowerStr r.title) (lowerStr u.title)))

theorem dedupStep_eq (st : List String × List Row) (r : Row) :
    dedupStep st r =
      if fingerprint r ∈ st.1 then st
      else if nearDupAny st.2 r then st
      else (fingerprint r :: st.1, st.2 ++ [r]) := rfl

theorem nearDupAny_iff (keep : List Row) (r : Row) :
    nearDupAny keep r = true ↔
      ∃ u ∈ keep, 92 ≤ tokenSetQ (lowerStr r.title) (lowerStr u.title) := by
  unfold nearDupAny
  rw [List.any_eq_true]
  constructor
  · rintro ⟨u, hu, hd⟩
    exact ⟨u, hu, of_decide_eq_true hd⟩
  · rintro ⟨u, hu, hd⟩
    exact ⟨u, hu, decide_eq_true hd⟩

/-- The `seen` set of the dedup loop contains exactly the fingerprints of the
kept rows (the loop adds to both in the same branch). -/
theorem dedup_seen_inv :
    ∀ (rows : List Row) (st : List String × List Row),
      (∀ s, s ∈ st.1 ↔ ∃ r ∈ st.2, fingerprint r = s) →
      ∀ s, s ∈ (rows.foldl dedupStep st).1 ↔
        ∃ r ∈ (rows.foldl dedupStep st).2, fingerprint r = s
  | [], _, hinv => hinv
  | x :: rows, st, hinv => by
      rw [List.foldl_cons]
      refine dedup_seen_inv rows (dedupStep st x) ?_
      rw [dedupStep_eq]
      split_ifs with h1 h2
      · exact hinv
      · exact hinv
      · intro s
        constructor
        · intro hs
          rcases List.mem_cons.mp hs with rfl | hs2
          · exact ⟨x, List.mem_append.mpr (Or.inr (List.mem_singleton.mpr rfl)), rfl⟩
          · obtain ⟨r, hr, hfp⟩ := (hinv s).mp hs2
            exact ⟨r, List.mem_append.mpr (Or.inl hr), hfp⟩
        · rintro ⟨r, hr, hfp⟩
          rcases List.mem_append.mp hr with h | h
          · exact List.mem_cons.mpr (Or.inr ((hinv s).mpr ⟨r, h, hfp⟩))
          · have hx : r = x := List.mem_singleton.mp h
            subst hx
            exact List.mem_cons.mpr (Or.inl hfp.symm)

theorem dedup_state_inv (rows : List Row) :
    ∀ s, s ∈ (rows.foldl dedupStep ([], [])).1 ↔
      ∃ r ∈ deduplicate rows, fingerprint r = s := by
  unfold deduplicate
  exact dedup_seen_inv rows ([], []) (by simp)

/-- Exact-phase skip: a row whose fingerprint matches an already-kept row is
dropped and the state is unchanged. -/
theorem dedup_drop_mid (pre post : List Row) (r : Row)
    (h : ∃ r1 ∈ deduplicate pre, fingerprint r1 = fingerprint r) :
    deduplicate (pre ++ r :: post) = deduplicate (pre ++ post) := by
  obtain ⟨r1, hr1, hfp⟩ := h
  have hseen : fingerprint r ∈ (pre.foldl dedupStep ([], [])).1 :=
    (dedup_state_inv pre (fingerprint r)).mpr ⟨r1, hr1, hfp⟩
  unfold deduplicate
  rw [List.foldl_append, List.foldl_append, List.foldl_cons, dedupStep_eq, if_pos hseen]

/-- Characterisation of one trailing step of `deduplicate`: the new row is
dropped iff an already-kept row shares its fingerprint or matches its title
at similarity ≥ 92; otherwise it is appended. -/
theorem dedup_snoc (rows : List Row) (r : Row) :
    deduplicate (rows ++ [r]) =
      if (∃ u ∈ deduplicate rows, fingerprint u = fingerprint r) ∨
         (∃ u ∈ deduplicate rows, 92 ≤ tokenSetQ (lowerStr r.title) (lowerStr u.title))
      then deduplicate rows
      else deduplicate rows ++ [r] := by
  have hkeep : (rows.foldl dedupStep ([], [])).2 = deduplicate rows := rfl
  have hfpiff : (fingerprint r ∈ (rows.foldl dedupStep ([], [])).1) ↔
      (∃ u ∈ deduplicate rows, fingerprint u = fingerprint r) :=
    dedup_state_inv rows (fingerprint r)
  have hndiff : (nearDupAny (rows.foldl dedupStep ([], [])).2 r = true) ↔
      (∃ u ∈ deduplicate rows, 92 ≤ tokenSetQ (lowerStr r.title) (lowerStr u.title)) := by
    rw [hkeep, nearDupAny_iff]
  have hd : deduplicate (rows ++ [r]) = (dedupStep (rows.foldl dedupStep ([], [])) r).2 := by
    unfold deduplicate
    rw [List.foldl_append, List.foldl_cons, List.foldl_nil]
  rw [hd, dedupStep_eq]
  by_cases h1 : fingerprint r ∈ (rows.foldl dedupStep ([], [])).1
  · rw [if_pos h1, if_pos (Or.inl (hfpiff.mp h1))]
    exact hkeep
  · rw [if_neg h1]
    by_cases h2 : nearDupAny (rows.foldl dedupStep ([], [])).2 r = true
    · rw [if_pos h2, if_pos (Or.inr (hndiff.mp h2))]
      exact hkeep
    · have hcon : ¬ ((∃ u ∈ deduplicate rows, fingerprint u = fingerprint r) ∨
          (∃ u ∈ deduplicate rows, 92 ≤ tokenSetQ (lowerStr r.title) (lowerStr u.title))) := by
        rintro (hc | hc)
        · exact h1 (hfpiff.mpr hc)
        · exact h2 (hndiff.mpr hc)
      rw [if_neg h2, if_neg hcon]
      show (rows.foldl dedupStep ([], [])).2 ++ [r] = deduplicate rows ++ [r]
      rw [hkeep]

theorem dedup_single (r : Row) : deduplicate [r] = [r] := by
  unfold deduplicate
  simp [dedupStep_eq, nearDupAny]

/-- Two-element near-duplicate drop: the second of two rows whose title
matches the first at similarity ≥ 92 is dropped. -/
theorem dedup_pair_sim (r1 r2 : Row)
    (h : 92 ≤ tokenSetQ (lowerStr r2.title) (lowerStr r1.title)) :
    deduplicate [r1, r2] = [r1] := by
  have h2 : ([r1, r2] : List Row) = [r1] ++ [r2] := rfl
  rw [h2, dedup_snoc, dedup_single, if_pos]
  exact Or.inr ⟨r1, List.mem_singleton.mpr rfl, h⟩

/-- Two-element exact-phase drop: the second of two rows with the same
fingerprint is dropped. -/
theorem dedup_pair_fp (r1 r2 : Row)
    (h : fingerprint r1 = fingerprint r2) :
    deduplicate [r1, r2] = [r1] := by
  have h2 : ([r1, r2] : List Row) = [r1] ++ [r2] := rfl
  rw [h2, dedup_snoc, dedup_single, if_pos]
  exact Or.inl ⟨r1, List.mem_singleton.mpr rfl, h⟩

theorem hash_id_pair (u t : String) : hash_id [u, t] = u ++ t := by
  unfold hash_id
  show String.join [u, t] = u ++ t
  simp [String.join]

/-- C5 (claims.json): the exact phase fingerprints `(URL, title)` and drops a
new item whenever a previously kept item shares the fingerprint; in
particular, of two items with identical `(URL, title)` only the first
survives. -/
theorem claim_C5_exact_phase :
    (∀ (pre post : List Row) (r2 : Row),
        (∃ r1 ∈ deduplicate pre, fingerprint r1 = fingerprint r2) →
        deduplicate (pre ++ r2 :: post) = deduplicate (pre ++ post)) ∧
    (∀ r1 r2 : Row, r1.url = r2.url → r1.title = r2.title →
        deduplicate [r1, r2] = [r1]) := by
  refine ⟨dedup_drop_mid, fun r1 r2 hu ht => dedup_pair_fp r1 r2 ?_⟩
  unfold fingerprint
  rw [hu, ht]

def rowC5a : Row :=
  { material := "LPG GAS", query_variant := "propane", title := "Propane prices rise",
    url := "https://example.com/a", published := "", source := "GoogleNewsRSS",
    summary := "first copy", score := 70 }

def rowC5b : Row := { rowC5a with summary := "second copy", score := 64 }

theorem claim_C5_witness :
    deduplicate [rowC5a, rowC5b] = [rowC5a] :=
  claim_C5_exact_phase.2 rowC5a rowC5b (by decide) (by decide)

/-- C10 (claims.json): the fingerprint hashes the UTF-8 bytes of URL and
title concatenated with no separator, so equal concatenations — even from
different `(URL, title)` pairs — get the same fingerprint, and the later such
item is dropped as an exact duplicate. -/
theorem claim_C10_fingerprint_concat :
    (∀ u1 t1 u2 t2 : String, u1 ++ t1 = u2 ++ t2 → hash_id [u1, t1] = hash_id [u2, t2]) ∧
    (∀ r1 r2 : Row, r1.url ++ r1.title = r2.url ++ r2.title →
        deduplicate [r1, r2] = [r1]) := by
  constructor
  · intro u1 t1 u2 t2 h
    rw [hash_id_pair, hash_id_pair, h]
  · intro r1 r2 h
    apply dedup_pair_fp
    unfold fingerprint
    rw [hash_id_pair, hash_id_pair, h]

def rowC10a : Row :=
  { material := "ACETONE", query_variant := "", title := "c",
    url := "ab", published := "", source := "GDELT", summary := "", score := 61 }

def rowC10b : Row :=
  { material := "ACETONE", query_variant := "", title := "bc",
    url := "a", published := "", source := "GDELT", summary := "", score := 62 }

theorem claim_C10_witness :
    deduplicate [rowC10a, rowC10b] = [rowC10a] :=
  claim_C10_fingerprint_concat.2 rowC10a rowC10b (by decide)

/-- C4 amended (claims.json): `deduplicate` is a left-to-right,
first-seen-wins pass; a new item is dropped iff an already-kept item shares
its fingerprint (exact phase) or has title similarity ≥ 92 (near-duplicate
phase), and otherwise it is kept; in particular, of two items with different
URLs but title similarity ≥ 92 only the first survives. -/
theorem claim_C4_dedup_policy :
    (∀ (rows : List Row) (r : Row),
        deduplicate (rows ++ [r]) =
          if (∃ u ∈ deduplicate rows, fingerprint u = fingerprint r) ∨
             (∃ u ∈ deduplicate rows, 92 ≤ tokenSetQ (lowerStr r.title) (lowerStr u.title))
          then deduplicate rows
          else deduplicate rows ++ [r]) ∧
    (∀ r1 r2 : Row, r1.url ≠ r2.url →
        92 ≤ tokenSetQ (lowerStr r2.title) (lowerStr r1.title) →
        deduplicate [r1, r2] = [r1]) :=
  ⟨dedup_snoc, fun r1 r2 _ h => dedup_pair_sim r1 r2 h⟩

def rowC4a : Row :=
  { material := "ACETONE", query_variant := "", title := "Acetone supply shortage hits region",
    url := "https://example.com/x", published := "", source := "GoogleNewsRSS",
    summary := "", score := 65 }

def rowC4b : Row := { rowC4a with url := "https://other.example.com/y", score := 66 }

theorem claim_C4_witness :
    deduplicate [rowC4a, rowC4b] = [rowC4a] :=
  claim_C4_dedup_policy.2 rowC4a rowC4b (by decide) (by with_unfolding_all decide)

/-- C4 counterexample: with items `(url "ab", title "c")` then
`(url "a", title "bc")`, the titles' token-set similarity is below 92, yet
the second item is dropped (the exact phase fires on the colliding
fingerprint `"abc"`), refuting "otherwise it is kept". -/
def rowC4c : Row :=
  { material := "ACETONE", query_variant := "", title := "c",
    url := "ab", published := "", source := "GDELT", summary := "", score := 63 }

def rowC4d : Row :=
  { material := "ACETONE", query_variant := "", title := "bc",
    url := "a", published := "", source := "GDELT", summary := "", score := 67 }

theorem claim_C4_counterexample :
    tokenSetQ (lowerStr rowC4d.title) (lowerStr rowC4c.title) < 92 ∧
    rowC4c.url ≠ rowC4d.url ∧ rowC4c.title ≠ rowC4d.title ∧
    deduplicate [rowC4c, rowC4d] = [rowC4c] := by
  refine ⟨by with_unfolding_all decide, by decide, by decide, ?_⟩
  exact dedup_pair_fp rowC4c rowC4d (by decide)

/- ================================================================
   Timestamp normalisation (`normalize_date`)
   ================================================================ -/

/-- A naive Python `datetime` value (year, month, day, hour, minute,
second). -/
structure PyDateTime where
  y : Nat
  mo : Nat
  dy : Nat
  hh : Nat
  mi : Nat
  ss : Nat
deriving DecidableEq, Repr

/-- Nondeterministic parser: every way to consume a prefix, in the priority
order of the regular-expression alternation that `strptime` compiles
(depth-first, so the head of the final list is the match the regex engine
returns). -/
def Prs (α : Type) : Type := List Char → List (α × List Char)

def pbind {α β : Type} (p : Prs α) (f : α → Prs β) : Prs β :=
  fun s => (p s).flatMap (fun ar => f ar.1 ar.2)

def pchar (c : Char) : Prs Unit := fun s =>
  match s with
  | x :: rest => if x = c then [((), rest)] else []
  | [] => []

/-- The rests reachable by consuming one or more whitespace characters,
longest consumption first (whitespace in a `strptime` format compiles to the
greedy `\s+`). -/
def pwsRests : List Char → List (List Char)
  | [] => []
  | c :: rest => if isPyWS c then pwsRests rest ++ [rest] else []

def pws : Prs Unit := fun s => (pwsRests s).map (fun r => ((), r))

def digitVal (c : Char) : Nat := c.toNat - 48

def isDigit (c : Char) : Bool := decide ('0' ≤ c) && decide (c ≤ '9')

/-- Embeds `%Y`, compiled by CPython's `_strptime` to exactly four digits. -/
def pYear : Prs Nat := fun s =>
  match s with
  | a :: b :: c :: d :: rest =>
      if isDigit a && isDigit b && isDigit c && isDigit d then
        [(((digitVal a * 10 + digitVal b) * 10 + digitVal c) * 10 + digitVal d, rest)]
      else []
  | _ => []

/-- Embeds `%m`, regex `1[0-2]|0[1-9]|[1-9]`, alternatives in that order. -/
def pMonth : Prs Nat := fun s =>
  (match s with
   | a :: b :: rest =>
       (if a = '1' && '0' ≤ b && b ≤ '2' then [(10 + digitVal b, rest)] else []) ++
       (if a = '0' && '1' ≤ b && b ≤ '9' then [(digitVal b, rest)] else [])
   | _ => []) ++
  (match s with
   | a :: rest => if '1' ≤ a && a ≤ '9' then [(digitVal a, rest)] else []
   | _ => [])

/-- Embeds `%d`, regex `3[01]|[12]\d|0[1-9]|[1-9]`. -/
def pDay : Prs Nat := fun s =>
  (match s with
   | a :: b :: rest =>
       (if a = '3' && '0' ≤ b && b ≤ '1' then [(30 + digitVal b, rest)] else []) ++
       (if '1' ≤ a && a ≤ '2' && isDigit b then [(digitVal a * 10 + digitVal b, rest)] else []) ++
       (if a = '0' && '1' ≤ b && b ≤ '9' then [(digitVal b, rest)] else [])
   | _ => []) ++
  (match s with
   | a :: rest => if '1' ≤ a && a ≤ '9' then [(digitVal a, rest)] else []
   | _ => [])

/-- Embeds `%H`, regex `2[0-3]|[01]\d|\d`. -/
def pHour : Prs Nat := fun s =>
  (match s with
   | a :: b :: rest =>
       (if a = '2' && '0' ≤ b && b ≤ '3' then [(20 + digitVal b, rest)] else []) ++
       (if ('0' ≤ a && a ≤ '1') && isDigit b then [(digitVal a * 10 + digitVal b, rest)] else [])
   | _ => []) ++
  (match s with
   | a :: rest => if isDigit a then [(digitVal a, rest)] else []
   | _ => [])

/-- Embeds `%M`, regex `[0-5]\d|\d`. -/
def pMinute : Prs Nat := fun s =>
  (match s with
   | a :: b :: rest =>
       if ('0' ≤ a && a ≤ '5') && isDigit b then [(digitVal a * 10 + digitVal b, rest)] else []
   | _ => []) ++
  (match s with
   | a :: rest => if isDigit a then [(digitVal a, rest)] else []
   | _ => [])

/-- Embeds `%S`, regex `6[0-1]|[0-5]\d|\d` (the leap-second forms parse but are then
rejected by the `datetime` constructor). -/
def pSecond : Prs Nat := fun s =>
  (match s with
   | a :: b :: rest =>
       (if a = '6' && '0' ≤ b && b ≤ '1' then [(60 + digitVal b, rest)] else []) ++
       (if ('0' ≤ a && a ≤ '5') && isDigit b then [(digitVal a * 10 + digitVal b, rest)] else [])
   | _ => []) ++
  (match s with
   | a :: rest => if isDigit a then [(digitVal a, rest)] else []
   | _ => [])

/-- Match one fixed lowercase word. -/
def pWord (lit : List Char) : Prs Unit := fun s =>
  if leadsWith lit s then [((), s.drop lit.length)] else []

/-- Embeds `%a`: the abbreviated weekday names (matched case-insensitively; the
parsed weekday is not cross-checked against the date). -/
def pWeekday : Prs Unit := fun s =>
  ([("mon"), ("tue"), ("wed"), ("thu"), ("fri"), ("sat"), ("sun")]).flatMap
    (fun w => pWord w.toList s)

/-- Embeds `%b`: the abbreviated month names, with their month numbers. -/
def MONTH_ABBRS : List (String × Nat) :=
  [(("jan"), 1), (("feb"), 2), (("mar"), 3), (("apr"), 4), (("may"), 5), (("jun"), 6),
   (("jul"), 7), (("aug"), 8), (("sep"), 9), (("oct"), 10), (("nov"), 11), (("dec"), 12)]

def pMonthName : Prs Nat := fun s =>
  MONTH_ABBRS.flatMap (fun p => if leadsWith p.1.toList s then [(p.2, s.drop 3)] else [])

/-- Embeds `%Z`: the timezone names `strptime` accepts.  Modelled from the spec: the
accepted set is `time.tzname` of the host plus `"utc"`/`"gmt"`; we keep the
portable members `utc` and `gmt`.  The parsed name does not make the result
timezone-aware (the caller force-tags the result as UTC). -/
def pTZName : Prs Unit := fun s =>
  ([("utc"), ("gmt")]).flatMap (fun w => pWord w.toList s)

def isLeapYear (y : Nat) : Bool :=
  (decide (y % 4 = 0) && decide (y % 100 ≠ 0)) || decide (y % 400 = 0)

def daysInMonth (y mo : Nat) : Nat :=
  if mo = 2 then (if isLeapYear y then 29 else 28)
  else if mo = 4 ∨ mo = 6 ∨ mo = 9 ∨ mo = 11 then 30
  else 31

/-- The validation performed by the `datetime` constructor (`MINYEAR = 1`;
real month lengths; no leap seconds). -/
def mkDT (y mo dy hh mi ss : Nat) : Option PyDateTime :=
  if 1 ≤ y ∧ y ≤ 9999 ∧ 1 ≤ mo ∧ mo ≤ 12 ∧ 1 ≤ dy ∧ dy ≤ daysInMonth y mo ∧
     hh ≤ 23 ∧ mi ≤ 59 ∧ ss ≤ 59
  then some ⟨y, mo, dy, hh, mi, ss⟩ else none

/-- Embeds `strptime` keeps the first (depth-first) regex match and then fails if it
did not consume the whole string; the surviving field values then go through
the `datetime` constructor. -/
def finishParse (res : List ((Nat × Nat × Nat × Nat × Nat × Nat) × List Char)) :
    Option PyDateTime :=
  match res.head? with
  | none => none
  | some (t, rest) =>
      if rest = [] then mkDT t.1 t.2.1 t.2.2.1 t.2.2.2.1 t.2.2.2.2.1 t.2.2.2.2.2 else none

/-- Format `"%a, %d %b %Y %H:%M:%S %Z"` (RSS). -/
def strpRSS (s : List Char) : Option PyDateTime :=
  finishParse <|
    (pbind pWeekday fun _ => pbind (pchar ',') fun _ => pbind pws fun _ =>
     pbind pDay fun d => pbind pws fun _ => pbind pMonthName fun mo =>
     pbind pws fun _ => pbind pYear fun y => pbind pws fun _ =>
     pbind pHour fun h => pbind (pchar ':') fun _ => pbind pMinute fun mi =>
     pbind (pchar ':') fun _ => pbind pSecond fun ss => pbind pws fun _ =>
     pbind pTZName fun _ =>
     fun rest => [((y, mo, d, h, mi, ss), rest)]) s

/-- Format `"%Y%m%d%H%M%S"` (GDELT `seendate`). -/
def strpCompact (s : List Char) : Option PyDateTime :=
  finishParse <|
    (pbind pYear fun y => pbind pMonth fun mo => pbind pDay fun d =>
     pbind pHour fun h => pbind pMinute fun mi => pbind pSecond fun ss =>
     fun rest => [((y, mo, d, h, mi, ss), rest)]) s

/-- Format `"%Y-%m-%dT%H:%M:%SZ"` (ISO-like, literal `T`/`Z` matched
case-insensitively by the `IGNORECASE` regex). -/
def strpISOz (s : List Char) : Option PyDateTime :=
  finishParse <|
    (pbind pYear fun y => pbind (pchar '-') fun _ => pbind pMonth fun mo =>
     pbind (pchar '-') fun _ => pbind pDay fun d => pbind (pchar 't') fun _ =>
     pbind pHour fun h => pbind (pchar ':') fun _ => pbind pMinute fun mi =>
     pbind (pchar ':') fun _ => pbind pSecond fun ss => pbind (pchar 'z') fun _ =>
     fun rest => [((y, mo, d, h, mi, ss), rest)]) s

/-- Format `"%Y-%m-%d %H:%M:%S"`. -/
def strpPlain (s : List Char) : Option PyDateTime :=
  finishParse <|
    (pbind pYear fun y => pbind (pchar '-') fun _ => pbind pMonth fun mo =>
     pbind (pchar '-') fun _ => pbind pDay fun d => pbind pws fun _ =>
     pbind pHour fun h => pbind (pchar ':') fun _ => pbind pMinute fun mi =>
     pbind (pchar ':') fun _ => pbind pSecond fun ss =>
     fun rest => [((y, mo, d, h, mi, ss), rest)]) s

/-- Embeds `dt.replace(tzinfo=utc).astimezone(Africa/Kampala).replace(tzinfo=None)`:
Africa/Kampala is the fixed offset UTC+3 (no daylight saving), so the
conversion adds three hours of wall-clock time and strips the tag. -/
def toLocalKampala (d : PyDateTime) : PyDateTime :=
  if d.hh + 3 ≤ 23 then { d with hh := d.hh + 3 }
  else
    let h2 := d.hh + 3 - 24
    if d.dy < daysInMonth d.y d.mo then { d with dy := d.dy + 1, hh := h2 }
    else if d.mo < 12 then { d with mo := d.mo + 1, dy := 1, hh := h2 }
    else { y := d.y + 1, mo := 1, dy := 1, hh := h2, mi := d.mi, ss := d.ss }

/-- The lowercased character list of a raw timestamp (the compiled `strptime`
patterns carry `IGNORECASE`; we lower the input against lowercase
patterns). -/
def tsLower (s : String) : List Char := s.toList.map Char.toLower

/-- Embeds `normalize_date`: empty input is unparseable; otherwise the four formats
are attempted in their fixed order, and the first successful parse is
interpreted as UTC, converted to Africa/Kampala and stripped of its timezone
tag; `none` when no format matches. -/
def normalize_date (s : String) : Option PyDateTime :=
  if s = "" then none
  else
    match strpRSS (tsLower s) with
    | some dt => some (toLocalKampala dt)
    | none =>
      match strpCompact (tsLower s) with
      | some dt => some (toLocalKampala dt)
      | none =>
        match strpISOz (tsLower s) with
        | some dt => some (toLocalKampala dt)
        | none =>
          match strpPlain (tsLower s) with
          | some dt => some (toLocalKampala dt)
          | none => none

/- ================================================================
   The main pipeline: scoring+floor, pinned merge, records, ordering
   ================================================================ -/

/-- Zero-padded two digits (`strftime` field). -/
def pad2 (n : Nat) : String := if n < 10 then ("0") ++ toString n else toString n

/-- Zero-padded four digits (`strftime` `%Y`). -/
def pad4 (n : Nat) : String :=
  if n < 10 then ("000") ++ toString n
  else if n < 100 then ("00") ++ toString n
  else if n < 1000 then ("0") ++ toString n
  else toString n

/-- Embeds `strftime("%Y-%m-%d %H:%M:%S")`. -/
def fmtDateTime (d : PyDateTime) : String :=
  pad4 d.y ++ ("-") ++ pad2 d.mo ++ ("-") ++ pad2 d.dy ++ (" ") ++
    pad2 d.hh ++ (":") ++ pad2 d.mi ++ (":") ++ pad2 d.ss

/-- One final output record (the DataFrame columns of `main`). -/
structure Record where
  Material : String
  QueryVariant : String
  Source : String
  Title : String
  Summary : String
  URL : String
  Published : PyDateTime
  Relevance : Int
deriving DecidableEq, Repr

/-- Embeds `r["score"] = relevance_score(r)` in the per-material loop of `main`. -/
def scoreRow (r : Row) : Row := { r with score := relevance_score r }

/-- The per-material scoring and relevance floor of `main`:
`rows = [r for r in rows if r["score"] >= MIN_RELEVANCE]` after scoring.
Pooling across materials is concatenation, so one list stands for the
concatenated fetches. -/
def filteredRows (rows : List Row) : List Row :=
  (rows.map scoreRow).filter (fun r => decide (MIN_RELEVANCE ≤ r.score))

/-- One pinned row of `main`: sentinel material, fixed query tag, fetched
page title (with fallback), the pinned URL, the formatted run time and the
forced score 100.  `meta` is the `(title, description)` pair returned by the
page-metadata fetch for the URL, `nowStr` the formatted local run time. -/
def pinnedRow (meta : String × String) (nowStr : String) (u : String) : Row :=
  { material := "MULTI / GLOBAL", query_variant := "Pinned",
    title := if meta.1 = "" then "Pinned: External insight" else meta.1,
    url := u, published := nowStr, source := "Pinned", summary := meta.2,
    score := 100 }

/-- The pinned rows of a run: one per configured `PINNED_SIGNALS` URL.
`metas` models the network fetch `fetch_page_meta` (title, description per
URL); `now` the local run time `today_local()`. -/
def pinnedRows (metas : String → String × String) (now : PyDateTime) : List Row :=
  PINNED_SIGNALS.map (fun u => pinnedRow (metas u) (fmtDateTime now) u)

/-- The pooled list handed to `deduplicate`: surviving dynamic rows of all
materials followed by the pinned rows. -/
def pooledRows (dyn : List Row) (metas : String → String × String)
    (now : PyDateTime) : List Row :=
  filteredRows dyn ++ pinnedRows metas now

/-- One output record: normalised published instant with the current run
time as fallback for unparseable timestamps (`normalize_date(...) or now`). -/
def toRecord (now : PyDateTime) (r : Row) : Record :=
  { Material := r.material, QueryVariant := r.query_variant, Source := r.source,
    Title := r.title, Summary := r.summary, URL := r.url,
    Published := (normalize_date r.published).getD now, Relevance := r.score }

/-- Chronological order on naive datetimes, as the lexicographic order on
the (year, month, day, hour, minute, second) tuple. -/
abbrev DTKey : Type :=
  Lex (Nat × Lex (Nat × Lex (Nat × Lex (Nat × Lex (Nat × Nat)))))

def dtKey (d : PyDateTime) : DTKey :=
  toLex (d.y, toLex (d.mo, toLex (d.dy, toLex (d.hh, toLex (d.mi, d.ss)))))

def dtLE (a b : PyDateTime) : Prop := dtKey a ≤ dtKey b

/-- The output ordering of `main`'s
`sort_values(["Material","Relevance","Published"], ascending=[True,False,False])`:
material ascending, then relevance descending, then published instant
descending. -/
def recOrd (a b : Record) : Prop :=
  a.Material < b.Material ∨
    (a.Material = b.Material ∧
      (b.Relevance < a.Relevance ∨
        (a.Relevance = b.Relevance ∧ dtLE b.Published a.Published)))

/-- The sort key realising `recOrd` inside a linear order. -/
def recKey (r : Record) : Lex (String × Lex (Int × OrderDual DTKey)) :=
  toLex (r.Material, toLex (-r.Relevance, OrderDual.toDual (dtKey r.Published)))

theorem recOrd_iff_recKey (a b : Record) : recOrd a b ↔ recKey a ≤ recKey b := by
  unfold recOrd recKey dtLE
  rw [Prod.Lex.le_iff, Prod.Lex.le_iff]
  simp only [OrderDual.toDual_le_toDual, neg_lt_neg_iff, neg_inj]

instance dtLEDecidable (a b : PyDateTime) : Decidable (dtLE a b) := by
  unfold dtLE
  exact (inferInstance : LinearOrder DTKey).decidableLE _ _

instance recOrdDecidable (a b : Record) : Decidable (recOrd a b) := by
  unfold recOrd
  infer_instance

def recordLe (a b : Record) : Bool := decide (recOrd a b)

theorem recordLe_trans (a b c : Record) :
    recordLe a b = true → recordLe b c = true → recordLe a c = true := by
  unfold recordLe
  rw [decide_eq_true_iff, decide_eq_true_iff, decide_eq_true_iff]
  rw [recOrd_iff_recKey, recOrd_iff_recKey, recOrd_iff_recKey]
  exact le_trans

theorem recordLe_total (a b : Record) : (recordLe a b || recordLe b a) = true := by
  unfold recordLe
  rw [Bool.or_eq_true, decide_eq_true_iff, decide_eq_true_iff,
    recOrd_iff_recKey, recOrd_iff_recKey]
  exact le_total (recKey a) (recKey b)

/-- The final sort of `main`.  (pandas' `sort_values` uses a deterministic
comparison sort on the three keys; the model fixes merge sort — the claims
concern only key-sortedness, membership and determinism, never the order of
exact ties.) -/
def sortRecords (rs : List Record) : List Record := rs.mergeSort recordLe

/-- The whole post-fetch pipeline of `main`: score and filter the fetched
dynamic rows, append the pinned rows, deduplicate, build records with the
run-time fallback, sort. -/
def finalRecords (dyn : List Row) (metas : String → String × String)
    (now : PyDateTime) : List Record :=
  sortRecords ((deduplicate (pooledRows dyn metas now)).map (toRecord now))

/-- Every row kept by `deduplicate` comes from the input list. -/
theorem dedup_keep_mem :
    ∀ (rows : List Row) (st : List String × List Row),
      ∀ r ∈ (rows.foldl dedupStep st).2, r ∈ st.2 ∨ r ∈ rows
  | [], _, r, hr => Or.inl hr
  | x :: rows, st, r, hr => by
      rw [List.foldl_cons] at hr
      rcases dedup_keep_mem rows (dedupStep st x) r hr with h | h
      · rw [dedupStep_eq] at h
        split_ifs at h
        · exact Or.inl h
        · exact Or.inl h
        · rcases List.mem_append.mp h with h2 | h2
          · exact Or.inl h2
          · exact Or.inr (List.mem_cons.mpr (Or.inl (List.mem_singleton.mp h2)))
      · exact Or.inr (List.mem_cons.mpr (Or.inr h))

theorem dedup_subset (rows : List Row) : ∀ r ∈ deduplicate rows, r ∈ rows := by
  intro r hr
  rcases dedup_keep_mem rows ([], []) r hr with h | h
  · exact absurd h (List.not_mem_nil r)
  · exact h

/- ================================================================
   Claims C7, C3, C6
   ================================================================ -/

/-- C7 (claims.json): `normalize_date` tries the four supported formats
(RSS-style, compact numeric, two ISO-like) in that fixed order; the first
successful parse is interpreted as UTC, converted to the fixed local
timezone (Africa/Kampala, UTC+3) and returned naive (tag stripped);
if no format matches it returns `none`, and the record builder substitutes
the current run time rather than failing the item.  The spec's scenario
`"Mon, 02 Jan 2023 10:00:00 GMT" ↦ 2023-01-02 13:00:00` is included. -/
theorem claim_C7_normalize_date :
    (∀ (s : String) (dt : PyDateTime), s ≠ "" → strpRSS (tsLower s) = some dt →
        normalize_date s = some (toLocalKampala dt)) ∧
    (∀ (s : String) (dt : PyDateTime), s ≠ "" → strpRSS (tsLower s) = none →
        strpCompact (tsLower s) = some dt →
        normalize_date s = some (toLocalKampala dt)) ∧
    (∀ (s : String) (dt : PyDateTime), s ≠ "" → strpRSS (tsLower s) = none →
        strpCompact (tsLower s) = none → strpISOz (tsLower s) = some dt →
        normalize_date s = some (toLocalKampala dt)) ∧
    (∀ (s : String) (dt : PyDateTime), s ≠ "" → strpRSS (tsLower s) = none →
        strpCompact (tsLower s) = none → strpISOz (tsLower s) = none →
        strpPlain (tsLower s) = some dt →
        normalize_date s = some (toLocalKampala dt)) ∧
    (∀ s : String, normalize_date s = none ↔
        strpRSS (tsLower s) = none ∧ strpCompact (tsLower s) = none ∧
        strpISOz (tsLower s) = none ∧ strpPlain (tsLower s) = none) ∧
    normalize_date ("Mon, 02 Jan 2023 10:00:00 GMT") = some ⟨2023, 1, 2, 13, 0, 0⟩ ∧
    (∀ (now : PyDateTime) (r : Row), normalize_date r.published = none →
        (toRecord now r).Published = now) ∧
    (∀ (now : PyDateTime) (r : Row) (dt : PyDateTime),
        normalize_date r.published = some dt → (toRecord now r).Published = dt) := by
  refine ⟨?_, ?_, ?_, ?_, ?_, ?_, ?_, ?_⟩
  · intro s dt hs h1
    simp [normalize_date, hs, h1]
  · intro s dt hs h1 h2
    simp [normalize_date, hs, h1, h2]
  · intro s dt hs h1 h2 h3
    simp [normalize_date, hs, h1, h2, h3]
  · intro s dt hs h1 h2 h3 h4
    simp [normalize_date, hs, h1, h2, h3, h4]
  · intro s
    by_cases hs : s = ""
    · subst hs
      constructor
      · intro _
        exact ⟨by decide, by decide, by decide, by decide⟩
      · intro _
        rfl
    · rcases h1 : strpRSS (tsLower s) with _ | dt1
      · rcases h2 : strpCompact (tsLower s) with _ | dt2
        · rcases h3 : strpISOz (tsLower s) with _ | dt3
          · rcases h4 : strpPlain (tsLower s) with _ | dt4
            · simp [normalize_date, hs, h1, h2, h3, h4]
            · simp [normalize_date, hs, h1, h2, h3, h4]
          · simp [normalize_date, hs, h1, h2, h3]
        · simp [normalize_date, hs, h1, h2]
      · simp [normalize_date, hs, h1]
  · decide
  · intro now r h
    simp [toRecord, h]
  · intro now r dt h
    simp [toRecord, h]

def rowC7 : Row :=
  { material := "ACETONE", query_variant := "", title := "Acetone markets",
    url := "https://example.com/acetone", published := "last Tuesday-ish",
    source := "GDELT", summary := "", score := 70 }

def nowC7 : PyDateTime := ⟨2025, 10, 12, 9, 30, 0⟩

theorem claim_C7_witness : (toRecord nowC7 rowC7).Published = nowC7 :=
  claim_C7_normalize_date.2.2.2.2.2.2.1 nowC7 rowC7 (by decide)

/-- C3 (claims.json): with the floor at 60, a scored non-pinned row enters
the pooled list (before deduplication) iff its computed score reaches
`MIN_RELEVANCE`; rows scoring 59 are excluded and rows scoring 60 are
included, being instances of the iff. -/
theorem claim_C3_relevance_floor :
    MIN_RELEVANCE = 60 ∧
    ∀ (rows : List Row) (r : Row),
      r ∈ filteredRows rows ↔
        (∃ r0 ∈ rows, r = scoreRow r0) ∧ MIN_RELEVANCE ≤ r.score := by
  refine ⟨rfl, fun rows r => ?_⟩
  unfold filteredRows
  rw [List.mem_filter, List.mem_map]
  constructor
  · rintro ⟨⟨r0, hr0, rfl⟩, hsc⟩
    exact ⟨⟨r0, hr0, rfl⟩, of_decide_eq_true hsc⟩
  · rintro ⟨⟨r0, hr0, rfl⟩, hsc⟩
    exact ⟨⟨r0, hr0, rfl⟩, decide_eq_true hsc⟩

/-- C6 (claims.json): the final record sequence is sorted by material
ascending, then relevance descending, then normalised published instant
descending (`recOrd`); it is a permutation of the deduplicated, recordised
pool; and identical inputs produce the identical ordering (the pipeline is a
pure function of its inputs). -/
theorem claim_C6_output_order (dyn : List Row) (metas : String → String × String)
    (now : PyDateTime) :
    List.Pairwise recOrd (finalRecords dyn metas now) ∧
    (finalRecords dyn metas now).Perm
      ((deduplicate (pooledRows dyn metas now)).map (toRecord now)) ∧
    (∀ (dyn2 : List Row) (metas2 : String → String × String) (now2 : PyDateTime),
      dyn = dyn2 → metas = metas2 → now = now2 →
      finalRecords dyn metas now = finalRecords dyn2 metas2 now2) := by
  refine ⟨?_, List.mergeSort_perm _ _, ?_⟩
  · have h := @List.sorted_mergeSort Record recordLe recordLe_trans recordLe_total
      ((deduplicate (pooledRows dyn metas now)).map (toRecord now))
    exact h.imp (fun hab => of_decide_eq_true hab)
  · rintro _ _ _ rfl rfl rfl
    rfl

/- ================================================================
   Claim C2: pinned signals
   ================================================================ -/

theorem penaltyQ_eq_zero (r : Row) (h : genericHit r = false) : penaltyQ r = 0 := by
  unfold penaltyQ
  rw [h]
  rfl

theorem baseQ_eq_100 (r : Row) (t : String) (ht : t ∈ expand_queries r.material)
    (h : (100 : ℚ) ≤ tokenSetQ (lowerStr t) (textLower r)) : baseQ r = 100 := by
  unfold baseQ
  exact foldl_max_eq _ _ t 100 ht h (fun y _ => tokenSetQ_le_100 _ _) (by norm_num)

/-- A raw score of at least 100 is capped to exactly 100. -/
theorem relevance_score_eq_100_of_raw (r : Row) (hraw : (100 : ℚ) ≤ rawScoreQ r) :
    relevance_score r = 100 := by
  unfold relevance_score
  rw [min_eq_left hraw]
  unfold pyInt
  rw [if_neg (by norm_num : ¬ (100 : ℚ) < 0)]
  norm_num

/-- A row whose blob matches its own material exactly (`base = 100`) and has
no generic keyword scores exactly 100: the cap at 100 absorbs the boosts. -/
theorem relevance_score_eq_100_of_base (r : Row) (hb : baseQ r = 100)
    (hg : genericHit r = false) : relevance_score r = 100 := by
  have hm := mplQ_nonneg r
  have he := eastQ_nonneg r
  have hglo := globQ_nonneg r
  refine relevance_score_eq_100_of_raw r ?_
  unfold rawScoreQ
  rw [penaltyQ_eq_zero r hg, hb]
  linarith

/-- C2 amended (claims.json): every pinned row enters the pool with score
exactly 100 regardless of the relevance floor (pinned rows are never passed
through the filter), and a pinned row appears in the final output with
relevance 100 provided no surviving dynamic row shares its fingerprint or
matches its title at similarity ≥ 92 — pinned rows are subject to both
deduplication phases like any other pooled row. -/
theorem claim_C2_pinned_score (dyn : List Row) (metas : String → String × String)
    (now : PyDateTime) :
    (∀ p ∈ pinnedRows metas now, p.score = 100) ∧
    (∀ p ∈ pinnedRows metas now,
      (∀ r ∈ filteredRows dyn, fingerprint r ≠ fingerprint p ∧
          tokenSetQ (lowerStr p.title) (lowerStr r.title) < 92) →
      ∃ rec ∈ finalRecords dyn metas now, rec.URL = p.url ∧ rec.Relevance = 100) := by
  constructor
  · intro p hp
    simp only [pinnedRows, PINNED_SIGNALS, List.map_cons, List.map_nil,
      List.mem_singleton] at hp
    subst hp
    rfl
  · intro p hp hsafe
    have hp2 := hp
    simp only [pinnedRows, PINNED_SIGNALS, List.map_cons, List.map_nil,
      List.mem_singleton] at hp2
    have hpr : pinnedRows metas now = [p] := by
      simp only [pinnedRows, PINNED_SIGNALS, List.map_cons, List.map_nil]
      rw [hp2]
    have hpool : pooledRows dyn metas now = filteredRows dyn ++ [p] := by
      unfold pooledRows
      rw [hpr]
    have hded : deduplicate (pooledRows dyn metas now) =
        deduplicate (filteredRows dyn) ++ [p] := by
      rw [hpool, dedup_snoc, if_neg]
      rintro (⟨u, hu, hfp⟩ | ⟨u, hu, hsim⟩)
      · exact (hsafe u (dedup_subset _ u hu)).1 hfp
      · have := (hsafe u (dedup_subset _ u hu)).2
        linarith
    refine ⟨toRecord now p, ?_, rfl, ?_⟩
    · unfold finalRecords sortRecords
      rw [List.Perm.mem_iff (List.mergeSort_perm _ _), hded]
      exact List.mem_map.mpr
        ⟨p, List.mem_append.mpr (Or.inr (List.mem_singleton.mpr rfl)), rfl⟩
    · show p.score = 100
      rw [hp2]
      rfl

def metasC2w : String → String × String := fun _ => ((""), (""))

def nowC2 : PyDateTime := ⟨2025, 10, 12, 10, 0, 0⟩

theorem claim_C2_witness :
    ∃ rec ∈ finalRecords [] metasC2w nowC2,
      rec.URL = ("https://www.bbc.com/news/articles/c9qy98gp474o") ∧
      rec.Relevance = 100 := by
  refine (claim_C2_pinned_score [] metasC2w nowC2).2
    (pinnedRow (metasC2w ("https://www.bbc.com/news/articles/c9qy98gp474o"))
      (fmtDateTime nowC2) ("https://www.bbc.com/news/articles/c9qy98gp474o"))
    (by simp [pinnedRows, PINNED_SIGNALS]) ?_
  intro r hr
  simp [filteredRows] at hr

/-- The dynamic row of the C2 counterexample: its blob is its own material,
so it scores 100 and survives the floor. -/
def rowC2dyn : Row :=
  { material := "zq", query_variant := "zq", title := "zq",
    url := "https://example.com/zq", published := "", source := "GoogleNewsRSS",
    summary := "", score := 0 }

def metasC2x : String → String × String := fun _ => (("zq"), (""))

/-- The pinned row produced in the counterexample run. -/
def pinC2 : Row :=
  pinnedRow (metasC2x ("https://www.bbc.com/news/articles/c9qy98gp474o"))
    (fmtDateTime nowC2) ("https://www.bbc.com/news/articles/c9qy98gp474o")

theorem relevance_score_rowC2dyn : relevance_score rowC2dyn = 100 :=
  relevance_score_eq_100_of_base rowC2dyn
    (baseQ_eq_100 rowC2dyn ("zq") (by decide) (by with_unfolding_all decide))
    (by decide)

/-- C2 counterexample: with one surviving dynamic row whose title equals the
pinned page's title, the pinned row is pooled but removed by the
near-duplicate phase, and no output record carries the pinned URL — refuting
"never removed by deduplication ... whatever other items are in the pooled
list". -/
theorem claim_C2_counterexample :
    pinC2 ∈ pinnedRows metasC2x nowC2 ∧
    pinC2 ∈ pooledRows [rowC2dyn] metasC2x nowC2 ∧
    pinC2 ∉ deduplicate (pooledRows [rowC2dyn] metasC2x nowC2) ∧
    ∀ rec ∈ finalRecords [rowC2dyn] metasC2x nowC2, rec.URL ≠ pinC2.url := by
  have hfilter : filteredRows [rowC2dyn] = [scoreRow rowC2dyn] := by
    simp [filteredRows, List.filter, scoreRow, relevance_score_rowC2dyn, MIN_RELEVANCE]
  have hpool : pooledRows [rowC2dyn] metasC2x nowC2 = [scoreRow rowC2dyn, pinC2] := by
    unfold pooledRows pinnedRows
    rw [hfilter]
    simp [PINNED_SIGNALS, pinC2]
  have hsim : 92 ≤ tokenSetQ (lowerStr pinC2.title) (lowerStr (scoreRow rowC2dyn).title) := by
    with_unfolding_all decide
  have hded : deduplicate (pooledRows [rowC2dyn] metasC2x nowC2) = [scoreRow rowC2dyn] := by
    rw [hpool]
    exact dedup_pair_sim _ _ hsim
  refine ⟨by simp [pinnedRows, PINNED_SIGNALS, pinC2], ?_, ?_, ?_⟩
  · rw [hpool]
    simp
  · rw [hded, List.mem_singleton]
    intro h
    have hu := congrArg Row.url h
    revert hu
    decide
  · intro rec hrec
    unfold finalRecords sortRecords at hrec
    rw [List.Perm.mem_iff (List.mergeSort_perm _ _), hded] at hrec
    simp only [List.map_cons, List.map_nil, List.mem_singleton] at hrec
    subst hrec
    show (scoreRow rowC2dyn).url ≠ pinC2.url
    decide

/- ================================================================
   Claim C8: the generic-topic penalty
   ================================================================ -/

theorem mplQ_eq_60 (r : Row) (t : String) (ht : t ∈ MPL_TERMS)
    (h : (100 : ℚ) ≤ winRatioQ (lowerStr t) (textLower r)) : mplQ r = 60 := by
  unfold mplQ
  refine foldl_max_eq _ _ t 60 ht (by linarith) ?_ (by norm_num)
  intro y _
  have := winRatioQ_le_100 (lowerStr y) (textLower r)
  linarith

theorem eastQ_eq_35 (r : Row) (t : String) (ht : t ∈ EAST_AF_HINTS)
    (h : (100 : ℚ) ≤ winRatioQ (lowerStr t) (textLower r)) : eastQ r = 35 := by
  unfold eastQ
  refine foldl_max_eq _ _ t 35 ht (by linarith) ?_ (by norm_num)
  intro y _
  have := winRatioQ_le_100 (lowerStr y) (textLower r)
  linarith

theorem globQ_eq_35 (r : Row) (t : String) (ht : t ∈ GLOBAL_SUPPLY_HINTS ++ GLOBAL_PORTS)
    (h : (100 : ℚ) ≤ winRatioQ (lowerStr t) (textLower r)) : globQ r = 35 := by
  unfold globQ
  refine foldl_max_eq _ _ t 35 ht (by linarith) ?_ (by norm_num)
  intro y _
  have := winRatioQ_le_100 (lowerStr y) (textLower r)
  linarith

/-- C8 amended (claims.json): the last line of `relevance_score` factors
through `scoreParts` of the four boosts and the generic flag; holding those
fixed, adding the generic keyword lowers the score by exactly 12 whenever
the unpenalised factor total lies in `[12, 100]`.  Totals below 12 cannot
occur with a generic keyword present (the brand boost alone is then ≥ 12),
and for totals above 100 the cap at 100 absorbs part or all of the
penalty. -/
theorem claim_C8_penalty :
    (∀ r : Row, relevance_score r =
        scoreParts (baseQ r) (mplQ r) (eastQ r) (globQ r) (genericHit r)) ∧
    (∀ b m e g : ℚ, 0 ≤ b → 0 ≤ m → 0 ≤ e → 0 ≤ g →
        12 ≤ b + m + e + g → b + m + e + g ≤ 100 →
        scoreParts b m e g true = scoreParts b m e g false - 12) ∧
    (∀ r : Row, genericHit r = true → 12 ≤ mplQ r) := by
  refine ⟨fun r => rfl, ?_, mplQ_ge_twelve_of_generic⟩
  intro b m e g hb hm he hg h12 h100
  unfold scoreParts
  rw [if_pos rfl, if_neg (by simp)]
  have hle : b + m + e + g - 12 ≤ 100 := by linarith
  have hge : (0 : ℚ) ≤ b + m + e + g - 12 := by linarith
  rw [sub_zero, min_eq_right hle, min_eq_right h100]
  unfold pyInt
  rw [if_neg (not_lt.mpr hge), if_neg (not_lt.mpr (by linarith : (0:ℚ) ≤ b + m + e + g))]
  rw [show (12 : ℚ) = ((12 : ℤ) : ℚ) by norm_num, Int.floor_sub_int]

theorem claim_C8_witness :
    scoreParts 50 10 0 0 true = scoreParts 50 10 0 0 false - 12 :=
  claim_C8_penalty.2.1 50 10 0 0 (by norm_num) (by norm_num) (by norm_num)
    (by norm_num) (by norm_num) (by norm_num)

/-- The C8 counterexample rows: the blob already contains an exact token of
the material and exact occurrences of one term from each boost category, so
every factor is at its cap and stays there when the keyword is added. -/
def rowC8p : Row :=
  { material := "tax", query_variant := "", title := "mpl eac tax",
    url := "https://example.com/t", published := "", source := "GDELT",
    summary := "", score := 0 }

def rowC8q : Row := { rowC8p with title := "mpl eac tax celebrity" }

/-- C8 counterexample: adding `"celebrity"` to the title while every factor
provably stays fixed (base 100, boosts 60/35/35) leaves the score at 100
instead of lowering it by 12 — the cap at 100 absorbs the penalty, refuting
"yields a score exactly 12 lower ... or 0". -/
theorem claim_C8_counterexample :
    baseQ rowC8q = baseQ rowC8p ∧ mplQ rowC8q = mplQ rowC8p ∧
    eastQ rowC8q = eastQ rowC8p ∧ globQ rowC8q = globQ rowC8p ∧
    genericHit rowC8p = false ∧ genericHit rowC8q = true ∧
    relevance_score rowC8p = 100 ∧ relevance_score rowC8q = 100 ∧
    relevance_score rowC8q ≠ relevance_score rowC8p - 12 ∧
    relevance_score rowC8q ≠ 0 := by
  have hbp : baseQ rowC8p = 100 :=
    baseQ_eq_100 rowC8p ("tax") (by decide) (by with_unfolding_all decide)
  have hbq : baseQ rowC8q = 100 :=
    baseQ_eq_100 rowC8q ("tax") (by decide) (by with_unfolding_all decide)
  have hmp : mplQ rowC8p = 60 :=
    mplQ_eq_60 rowC8p ("MPL") (by decide) (by with_unfolding_all decide)
  have hmq : mplQ rowC8q = 60 :=
    mplQ_eq_60 rowC8q ("MPL") (by decide) (by with_unfolding_all decide)
  have hep : eastQ rowC8p = 35 :=
    eastQ_eq_35 rowC8p ("EAC") (by decide) (by with_unfolding_all decide)
  have heq2 : eastQ rowC8q = 35 :=
    eastQ_eq_35 rowC8q ("EAC") (by decide) (by with_unfolding_all decide)
  have hgp : globQ rowC8p = 35 :=
    globQ_eq_35 rowC8p ("tax") (by decide) (by with_unfolding_all decide)
  have hgq : globQ rowC8q = 35 :=
    globQ_eq_35 rowC8q ("tax") (by decide) (by with_unfolding_all decide)
  have hgenp : genericHit rowC8p = false := by decide
  have hgenq : genericHit rowC8q = true := by decide
  have hsp : relevance_score rowC8p = 100 :=
    relevance_score_eq_100_of_base rowC8p hbp hgenp
  have hsq : relevance_score rowC8q = 100 := by
    refine relevance_score_eq_100_of_raw rowC8q ?_
    unfold rawScoreQ penaltyQ
    rw [hbq, hmq, heq2, hgq, hgenq]
    norm_num
  refine ⟨by rw [hbq, hbp], by rw [hmq, hmp], by rw [heq2, hep], by rw [hgq, hgp],
    hgenp, hgenq, hsp, hsq, ?_, ?_⟩
  · rw [hsq, hsp]
    decide
  · rw [hsq]
    decide

/- ================================================================
   Claim C9: the bounded retry policy of `safe_get`
   ================================================================ -/

/-- What one HTTP attempt can produce: a raised transport exception, or a
response with a status code. -/
inductive HttpOutcome where
  | exc : HttpOutcome
  | resp : Nat → HttpOutcome
deriving DecidableEq, Repr

/-- The only success test of `safe_get`: a response arrived (no exception)
and its status code is exactly 200. -/
def isOk : HttpOutcome → Bool
  | .resp s => s == 200
  | .exc => false

/-- Embeds `backoff_sleep(attempt)`: `(lo + (hi − lo) · random()) · attempt` with
`(lo, hi) = RETRY_BACKOFF`; the random draw is the jitter oracle's value. -/
def backoffDur (jitter : ℚ) (attempt : Nat) : ℚ :=
  (RETRY_BACKOFF.1 + (RETRY_BACKOFF.2 - RETRY_BACKOFF.1) * jitter) * attempt

/-- The loop of `safe_get` from a given attempt number with the remaining
fuel; returns which attempt's response was returned (`none` for the final
`return None`) and the trace of backoff sleeps performed, in order. -/
def safeGetAux (oracle : Nat → HttpOutcome) (jitters : Nat → ℚ) :
    Nat → Nat → Option Nat × List ℚ
  | 0, _ => (none, [])
  | fuel + 1, attempt =>
      if isOk (oracle attempt) then (some attempt, [])
      else if attempt < RETRY_ATTEMPTS then
        ((safeGetAux oracle jitters fuel (attempt + 1)).1,
         backoffDur (jitters attempt) attempt ::
           (safeGetAux oracle jitters fuel (attempt + 1)).2)
      else (none, [])

/-- Embeds `safe_get`, over an outcome oracle (what `requests.get` does on each
attempt) and a jitter oracle (the `random.random()` draws). -/
def safe_get (oracle : Nat → HttpOutcome) (jitters : Nat → ℚ) :
    Option Nat × List ℚ :=
  safeGetAux oracle jitters RETRY_ATTEMPTS 1

/-- C9 amended (claims.json): `safe_get` makes at most `RETRY_ATTEMPTS = 3`
attempts; every attempt after the first is preceded by one randomly jittered
backoff sleep whose duration scales linearly with the attempt number; and an
attempt is retried whenever it does not yield a 200 response — whether it
raised a transport exception or returned a non-success status — with `None`
returned once the attempts are spent. -/
theorem claim_C9_retry (oracle : Nat → HttpOutcome) (jitters : Nat → ℚ) :
    RETRY_ATTEMPTS = 3 ∧
    (∀ (q : ℚ) (k : Nat), backoffDur q k = (12/10 + (2 - 12/10) * q) * k) ∧
    safe_get oracle jitters =
      (if isOk (oracle 1) then (some 1, [])
       else if isOk (oracle 2) then (some 2, [backoffDur (jitters 1) 1])
       else if isOk (oracle 3) then
         (some 3, [backoffDur (jitters 1) 1, backoffDur (jitters 2) 2])
       else (none, [backoffDur (jitters 1) 1, backoffDur (jitters 2) 2])) := by
  refine ⟨rfl, fun q k => rfl, ?_⟩
  unfold safe_get
  by_cases h1 : isOk (oracle 1)
  · simp [safeGetAux, h1, RETRY_ATTEMPTS]
  · by_cases h2 : isOk (oracle 2)
    · simp [safeGetAux, h1, h2, RETRY_ATTEMPTS]
    · by_cases h3 : isOk (oracle 3)
      · simp [safeGetAux, h1, h2, h3, RETRY_ATTEMPTS]
      · simp [safeGetAux, h1, h2, h3, RETRY_ATTEMPTS]

/-- The C9 counterexample oracles: attempt 1 returns a non-success response
(status 500, no exception), attempt 2 returns status 200. -/
def oracleC9 : Nat → HttpOutcome := fun n => if n = 1 then .resp 500 else .resp 200

def jittersC9 : Nat → ℚ := fun _ => 0

/-- C9 counterexample: after a non-success (non-exception) first response
the helper sleeps once and retries, and returns the second attempt's
response — refuting "a non-success HTTP response is not retried but treated
as exhausted retries". -/
theorem claim_C9_counterexample :
    oracleC9 1 = HttpOutcome.resp 500 ∧
    (safe_get oracleC9 jittersC9).1 = some 2 ∧
    (safe_get oracleC9 jittersC9).2 = [12/10] := by
  refine ⟨rfl, ?_, ?_⟩
  · with_unfolding_all decide
  · with_unfolding_all decide

/- ================================================================
   Standalone witnesses for the ordering and floor claims
   ================================================================ -/

def metasC6 : String → String × String := fun _ => ((""), (""))

def nowC6 : PyDateTime := ⟨2024, 1, 1, 0, 0, 0⟩

theorem claim_C6_witness :
    List.Pairwise recOrd (finalRecords [] metasC6 nowC6) ∧
    finalRecords [] metasC6 nowC6 = finalRecords [] metasC6 nowC6 :=
  ⟨(claim_C6_output_order [] metasC6 nowC6).1,
   (claim_C6_output_order [] metasC6 nowC6).2.2 [] metasC6 nowC6 rfl rfl rfl⟩

/-- A row for the floor witness: blob equal to its own material, so its
computed score is 100. -/
def rowC3 : Row :=
  { material := "zr", query_variant := "zr", title := "zr",
    url := "https://example.com/zr", published := "", source := "GoogleNewsRSS",
    summary := "", score := 0 }

theorem relevance_score_rowC3 : relevance_score rowC3 = 100 :=
  relevance_score_eq_100_of_base rowC3
    (baseQ_eq_100 rowC3 ("zr") (by decide) (by with_unfolding_all decide))
    (by decide)

theorem claim_C3_witness : scoreRow rowC3 ∈ filteredRows [rowC3] := by
  refine ((claim_C3_relevance_floor.2 [rowC3] (scoreRow rowC3)).mpr
    ⟨⟨rowC3, List.mem_singleton.mpr rfl, rfl⟩, ?_⟩)
  show MIN_RELEVANCE ≤ (scoreRow rowC3).score
  have h : (scoreRow rowC3).score = relevance_score rowC3 := rfl
  rw [h, relevance_score_rowC3]
  decide
